import Mathlib

/-!
Verification of the wake-word voice front-end (the `wake` module family):
the fuzzy/phonetic wake-phrase matcher, the energy-based voice-activity
detector, the streaming-recognition session wrapper and the orchestrating
state machine.  Transcripts and audio byte buffers are modelled as lists;
JavaScript double arithmetic is modelled by exact rationals.
-/

namespace HeidiWake

/-! String utilities modelling the JavaScript string operations used by
the matcher (toLowerCase, trim, indexOf, split on whitespace runs). -/

/-- ASCII whitespace, the characters relevant to the JS regex class \s here. -/
def isWsChar (c : Char) : Bool :=
  c == ' ' || c == '\t' || c == '\n' || c == '\r'

/-- JavaScript toLowerCase restricted to the ASCII range. -/
def lowerStr (s : List Char) : List Char := s.map Char.toLower

/-- JavaScript String.trim: strip whitespace from both ends. -/
def trimStr (s : List Char) : List Char :=
  ((s.dropWhile isWsChar).reverse.dropWhile isWsChar).reverse

/-- JavaScript String.indexOf: index of the first occurrence of a substring. -/
def substrIdx (needle : List Char) : List Char → Option Nat
  | [] => if needle.isPrefixOf ([] : List Char) then some 0 else none
  | c :: t =>
    if needle.isPrefixOf (c :: t) then some 0
    else (substrIdx needle t).map (· + 1)

theorem dropWhile_len_le (p : Char → Bool) (l : List Char) :
    (l.dropWhile p).length ≤ l.length := by
  induction l with
  | nil => simp [List.dropWhile]
  | cons c t ih =>
    by_cases h : p c
    · simp [List.dropWhile, h]; omega
    · simp [List.dropWhile, h]

/-- JavaScript String.split(/\s+/): split at maximal whitespace runs.  A
leading or trailing run contributes an empty token, as in JS. -/
def splitWsAux : List Char → List Char → List (List Char)
  | [], acc => [acc.reverse]
  | c :: rest, acc =>
    if isWsChar c then
      acc.reverse :: splitWsAux (rest.dropWhile isWsChar) []
    else
      splitWsAux rest (c :: acc)
termination_by l _ => l.length
decreasing_by
  · have := dropWhile_len_le isWsChar rest
    simp only [List.length_cons]
    omega
  · simp only [List.length_cons]
    omega

def splitWs (s : List Char) : List (List Char) := splitWsAux s []

/-- JavaScript Array.join(" "). -/
def joinSpace : List (List Char) → List Char
  | [] => []
  | [w] => w
  | w :: ws => w ++ ' ' :: joinSpace ws

/-! The wake-word matcher, from wakeWordMatcher.ts. -/

/-- One entry produced by WakeWordMatcher.extractPotentialWakeWords:
a candidate phrase and the transcript text remaining after it. -/
structure Candidate where
  text : List Char
  remaining : List Char
deriving DecidableEq, Repr

/-- Single-word candidates, in transcript order, each with the words after it. -/
def singlesOf : List (List Char) → List Candidate
  | [] => []
  | w :: rest => ⟨w, joinSpace rest⟩ :: singlesOf rest

/-- Adjacent-pair candidates, in transcript order, each with the words after. -/
def pairsOf : List (List Char) → List Candidate
  | w1 :: w2 :: rest => ⟨w1 ++ ' ' :: w2, joinSpace rest⟩ :: pairsOf (w2 :: rest)
  | _ => []

/-- WakeWordMatcher.extractPotentialWakeWords: all single words followed by
all adjacent word pairs of the (already normalized) transcript. -/
def extractPotentialWakeWords (text : List Char) : List Candidate :=
  let words := splitWs text
  singlesOf words ++ pairsOf words

/-- Levenshtein edit distance; the source fills the standard dynamic
programming matrix implementing exactly this recurrence cell by cell. -/
def levenshteinDistance : List Char → List Char → Nat
  | [], b => b.length
  | a, [] => a.length
  | x :: a, y :: b =>
    if x = y then levenshteinDistance a b
    else 1 + min (levenshteinDistance a b)
        (min (levenshteinDistance (x :: a) b) (levenshteinDistance a (y :: b)))
termination_by a b => a.length + b.length
decreasing_by
  all_goals simp only [List.length_cons]
  all_goals omega

/-- WakeWordMatcher.levenshteinSimilarity. -/
def levenshteinSimilarity (a b : List Char) : ℚ :=
  let distance := levenshteinDistance a b
  let maxLength := max a.length b.length
  if maxLength = 0 then 1 else 1 - (distance : ℚ) / (maxLength : ℚ)

/-- The Soundex-style consonant-class table of WakeWordMatcher.phoneticCode. -/
def phonMap (c : Char) : Option Char :=
  if c = 'b' ∨ c = 'f' ∨ c = 'p' ∨ c = 'v' then some '1'
  else if c = 'c' ∨ c = 'g' ∨ c = 'j' ∨ c = 'k' ∨ c = 'q' ∨ c = 's' ∨ c = 'x' ∨ c = 'z'
    then some '2'
  else if c = 'd' ∨ c = 't' then some '3'
  else if c = 'l' then some '4'
  else if c = 'm' ∨ c = 'n' then some '5'
  else if c = 'r' then some '6'
  else none

/-- The scan loop of phoneticCode: consecutive identical class codes collapse,
unmapped characters clear the last-code memory. -/
def phonLoop : List Char → Option Char → List Char
  | [], _ => []
  | c :: rest, last =>
    match phonMap c with
    | some code =>
      if some code ≠ last then code :: phonLoop rest (some code)
      else phonLoop rest last
    | none => phonLoop rest none

def isAsciiLowerAlpha (c : Char) : Bool := 'a' ≤ c && c ≤ 'z'

/-- padEnd(4, '0') applied after substring(0, 4). -/
def padCode (l : List Char) : List Char := l ++ List.replicate (4 - l.length) '0'

/-- WakeWordMatcher.phoneticCode: first letter literal (uppercased), then
collapsed consonant classes, truncated/padded to 4 characters. -/
def phoneticCode (word : List Char) : List Char :=
  let w := (lowerStr word).filter isAsciiLowerAlpha
  match w with
  | [] => []
  | c0 :: rest =>
    let code := c0.toUpper :: phonLoop rest (phonMap c0)
    padCode (code.take 4)

/-- Matching positions over the common length of two codes. -/
def countPosMatches : List Char → List Char → Nat
  | x :: xs, y :: ys => (if x = y then 1 else 0) + countPosMatches xs ys
  | _, _ => 0

/-- WakeWordMatcher.phoneticSimilarity. -/
def phoneticSimilarity (a b : List Char) : ℚ :=
  let codeA := phoneticCode a
  let codeB := phoneticCode b
  if codeA = codeB then 1
  else (countPosMatches codeA codeB : ℚ) / ((max codeA.length codeB.length : ℕ) : ℚ)

/-! The normalizePhonetics regex substitutions.  Each JS regex is applied
once (non-global), case-insensitively; alternatives are tried in source
order at each scan position, leftmost match first. -/

def ciChar (a b : Char) : Bool := a.toLower == b.toLower

/-- Case-insensitive "pattern is a prefix of s". -/
def ciStarts : List Char → List Char → Bool
  | [], _ => true
  | _ :: _, [] => false
  | p :: ps, c :: cs => ciChar p c && ciStarts ps cs

def ciEqStr (a b : List Char) : Bool := lowerStr a == lowerStr b

def sub1Alts : List (List Char) := ["hi".data, "hey".data, "hy".data, "high".data]

/-- Regex 1, anchored at the start: the matched alternative plus the
following whitespace run is replaced by "HI". -/
def applySub1 (s : List Char) : List Char :=
  match sub1Alts.find? (fun p => ciStarts p s) with
  | some p => "HI".data ++ (s.drop p.length).dropWhile isWsChar
  | none => s

def sub2Alts : List (List Char) :=
  ["dee".data, "di".data, "dy".data, "d".data, "de".data, "the".data, "thee".data]

/-- Whether regex 2 matches starting at this position: optional whitespace
then one of the alternatives, ending exactly at the end of the string. -/
def sub2TailHit (t : List Char) : Bool :=
  sub2Alts.any (fun p => ciEqStr p (t.dropWhile isWsChar))

/-- Leftmost-position scan for regex 2; on a hit the whole tail from the
scan position is replaced by "DEE". -/
def applySub2Go (pre : List Char) : List Char → List Char
  | [] => if sub2TailHit [] then pre ++ "DEE".data else pre
  | c :: t =>
    if sub2TailHit (c :: t) then pre ++ "DEE".data
    else applySub2Go (pre ++ [c]) t

def applySub2 (s : List Char) : List Char := applySub2Go [] s

def sub3Alts : List (List Char) :=
  ["heidi".data, "hedy".data, "hydie".data, "haidee".data, "haydi".data,
   "heedy".data, "hide".data, "hidey".data]

/-- Regex 3, anchored at both ends: a whole-string hit becomes "HIDEE". -/
def applySub3 (s : List Char) : List Char :=
  if sub3Alts.any (fun p => ciEqStr p s) then "HIDEE".data else s

def sub4Alts : List (List Char) := ["hide".data, "heyd".data, "hayd".data]

/-- Regex 4, anchored at the start: the matched prefix becomes "HIDEE". -/
def applySub4 (s : List Char) : List Char :=
  match sub4Alts.find? (fun p => ciStarts p s) with
  | some p => "HIDEE".data ++ s.drop p.length
  | none => s

/-- WakeWordMatcher.normalizePhonetics: lowercase and trim, apply the four
substitutions in order, then delete all remaining whitespace. -/
def normalizePhonetics (text : List Char) : List Char :=
  let r0 := trimStr (lowerStr text)
  let r4 := applySub4 (applySub3 (applySub2 (applySub1 r0)))
  r4.filter (fun c => !isWsChar c)

/-- WakeWordMatcher.soundsLike. -/
def soundsLike (a b : List Char) : Bool :=
  normalizePhonetics a == normalizePhonetics b

/-- WakeWordMatcher.calculateSimilarity: the blended three-signal score. -/
def calculateSimilarity (a b : List Char) : ℚ :=
  let levenshteinSim := levenshteinSimilarity a b
  let phoneticSim := phoneticSimilarity a b
  let similar := soundsLike a b
  levenshteinSim * (3 / 10) + phoneticSim * (4 / 10) + (if similar then 3 / 10 else 0)

/-- The WakeWordMatch result record. -/
structure WakeWordMatch where
  matched : Bool
  matchedPhrase : List Char
  matchedWakeWord : List Char
  confidence : ℚ
  remainingText : List Char
deriving DecidableEq, Repr

/-- The matcher's state: normalized wake words and the threshold. -/
structure WakeWordMatcher where
  wakeWords : List (List Char)
  threshold : ℚ

/-- The WakeWordMatcher constructor: wake words are lowercased and trimmed. -/
def WakeWordMatcher.create (ws : List (List Char)) (threshold : ℚ) : WakeWordMatcher :=
  ⟨ws.map (fun w => trimStr (lowerStr w)), threshold⟩

/-- The exact-substring loop of WakeWordMatcher.match: first configured
phrase found in the normalized transcript wins, confidence 1. -/
def matchExactLoop (normalized : List Char) : List (List Char) → Option WakeWordMatch
  | [] => none
  | w :: ws =>
    match substrIdx w normalized with
    | some index =>
      some ⟨true, w, w, 1, trimStr (normalized.drop (index + w.length))⟩
    | none => matchExactLoop normalized ws

/-- The inner fuzzy loop: a candidate against each configured phrase. -/
def fuzzyInner (candidate : Candidate) (threshold : ℚ) :
    List (List Char) → Option WakeWordMatch
  | [] => none
  | w :: ws =>
    let similarity := calculateSimilarity candidate.text w
    if threshold ≤ similarity then
      some ⟨true, candidate.text, w, similarity, candidate.remaining⟩
    else fuzzyInner candidate threshold ws

/-- The outer fuzzy loop over candidates. -/
def fuzzyOuter (threshold : ℚ) (ws : List (List Char)) :
    List Candidate → Option WakeWordMatch
  | [] => none
  | c :: cs =>
    match fuzzyInner c threshold ws with
    | some r => some r
    | none => fuzzyOuter threshold ws cs

/-- WakeWordMatcher.match. -/
def WakeWordMatcher.matchText (m : WakeWordMatcher) (transcript : List Char) :
    WakeWordMatch :=
  let normalized := trimStr (lowerStr transcript)
  match matchExactLoop normalized m.wakeWords with
  | some r => r
  | none =>
    match fuzzyOuter m.threshold m.wakeWords (extractPotentialWakeWords normalized) with
    | some r => r
    | none => ⟨false, [], [], 0, transcript⟩

/-- DEFAULT_CONFIG.wakeWords from types.ts. -/
def defaultWakeWords : List (List Char) :=
  ["hi dee".data, "hi d".data, "heidi".data, "hey dee".data, "hey d".data,
   "hedy".data, "hide e".data, "hydie".data, "heydee".data, "hi di".data,
   "hey di".data]

/-- DEFAULT_CONFIG.wakeWordThreshold = 0.55. -/
def defaultThreshold : ℚ := 11 / 20

/-- A WakeWordMatcher built with the default configuration. -/
def defaultMatcher : WakeWordMatcher :=
  WakeWordMatcher.create defaultWakeWords defaultThreshold

/-- C1 counterexample: with the default configuration,
match("hi dee, start recording") takes the exact-substring path, and the
residual text is substring-after-match trimmed of whitespace only, which
keeps the comma: ", start recording", not "start recording". -/
theorem c1_residual_counterexample :
    (defaultMatcher.matchText "hi dee, start recording".data).remainingText ≠
      "start recording".data := by
  decide

/-- C1 amended: match("hi dee, start recording") with the default
configuration returns matched = true, matchedPhrase = "hi dee",
confidence 1, and residual text ", start recording" (the comma survives
because JS trim only strips whitespace). -/
theorem c1_amended_exact_match :
    defaultMatcher.matchText "hi dee, start recording".data =
      ⟨true, "hi dee".data, "hi dee".data, 1, ", start recording".data⟩ := by
  decide

/-! Claim-side definitions for the fuzzy-matching path, written from the
specification's wording, to be compared with the code path. -/

/-- Blended similarity score as worded in the spec:
0.3·levenshteinSimilarity + 0.4·phoneticCodeSimilarity + 0.3·(1 if the
normalized phonetic forms are equal, else 0), with levenshteinSimilarity
spelled out as 1 − editDistance/max(len(a),len(b)) (rational division by
zero makes the max = 0 corner give 1 as well, matching the code's guard). -/
def specBlendedScore (a b : List Char) : ℚ :=
  3 / 10 * (1 - (levenshteinDistance a b : ℚ) / ((max a.length b.length : ℕ) : ℚ))
    + 4 / 10 * phoneticSimilarity a b
    + 3 / 10 * (if normalizePhonetics a = normalizePhonetics b then 1 else 0)

/-- Claim-side search: all candidate × configured-phrase pairs, candidates
outermost, and the first pair whose score reaches the threshold wins. -/
def specFuzzyFind (m : WakeWordMatcher) (normalized : List Char) :
    Option (Candidate × List Char) :=
  ((extractPotentialWakeWords normalized).flatMap
      (fun c => m.wakeWords.map (fun w => (c, w)))).find?
    (fun p => decide (m.threshold ≤ specBlendedScore p.1.text p.2))

theorem matchExactLoop_eq_none (s : List Char) (ws : List (List Char))
    (h : ∀ w ∈ ws, substrIdx w s = none) : matchExactLoop s ws = none := by
  induction ws with
  | nil => rfl
  | cons w ws ih =>
    have hw := h w (List.mem_cons_self w ws)
    simp only [matchExactLoop, hw]
    exact ih (fun x hx => h x (List.mem_cons_of_mem _ hx))

theorem fuzzyInner_eq_find (c : Candidate) (θ : ℚ) (ws : List (List Char)) :
    fuzzyInner c θ ws =
      (ws.find? (fun w => decide (θ ≤ calculateSimilarity c.text w))).map
        (fun w => ⟨true, c.text, w, calculateSimilarity c.text w, c.remaining⟩) := by
  induction ws with
  | nil => rfl
  | cons w ws ih =>
    by_cases h : θ ≤ calculateSimilarity c.text w
    · simp [fuzzyInner, List.find?_cons, h]
    · simp [fuzzyInner, List.find?_cons, h, ih]

theorem find?_map_pair (P : Candidate × List Char → Bool) (c : Candidate)
    (ws : List (List Char)) :
    (ws.map (fun w => (c, w))).find? P =
      (ws.find? (fun w => P (c, w))).map (fun w => (c, w)) := by
  induction ws with
  | nil => rfl
  | cons w ws ih =>
    by_cases h : P (c, w) = true
    · simp [List.find?_cons, h]
    · simp only [List.map_cons, List.find?_cons, h]
      simpa [h] using ih

theorem fuzzyOuter_eq_find (θ : ℚ) (ws : List (List Char)) (cs : List Candidate) :
    fuzzyOuter θ ws cs =
      ((cs.flatMap (fun c => ws.map (fun w => (c, w)))).find?
          (fun p => decide (θ ≤ calculateSimilarity p.1.text p.2))).map
        (fun p => ⟨true, p.1.text, p.2, calculateSimilarity p.1.text p.2,
          p.1.remaining⟩) := by
  induction cs with
  | nil => rfl
  | cons c cs ih =>
    rw [List.flatMap_cons, List.find?_append, find?_map_pair]
    simp only [fuzzyOuter, fuzzyInner_eq_find]
    cases hf : ws.find? (fun w => decide (θ ≤ calculateSimilarity c.text w)) with
    | none => simpa [hf] using ih
    | some w => simp [hf]

theorem specBlendedScore_eq_calculateSimilarity (a b : List Char) :
    specBlendedScore a b = calculateSimilarity a b := by
  unfold specBlendedScore calculateSimilarity levenshteinSimilarity soundsLike
  by_cases hm : max a.length b.length = 0
  · rcases Nat.max_eq_zero_iff.mp hm with ⟨ha, hb⟩
    have ha' := List.length_eq_zero.mp ha
    have hb' := List.length_eq_zero.mp hb
    subst ha'
    subst hb'
    simp [levenshteinDistance, phoneticSimilarity, soundsLike]
  · simp only [if_neg hm, beq_iff_eq]
    split_ifs <;> ring

/-- C2: when no configured phrase occurs as an exact (case-insensitive,
via normalization) substring, the matcher returns exactly the first
candidate/phrase pair — candidates in generation order (single words then
adjacent pairs), phrases in configuration order — whose blended score
0.3·levenshtein + 0.4·phoneticCode + 0.3·soundsAlike reaches the
threshold, with that score as the confidence; otherwise "not matched"
with the original transcript as residual. -/
theorem wake_match_fuzzy_refines_spec (m : WakeWordMatcher) (t : List Char)
    (h : ∀ w ∈ m.wakeWords, substrIdx w (trimStr (lowerStr t)) = none) :
    m.matchText t =
      (specFuzzyFind m (trimStr (lowerStr t))).elim
        ⟨false, [], [], 0, t⟩
        (fun p => ⟨true, p.1.text, p.2, specBlendedScore p.1.text p.2,
          p.1.remaining⟩) := by
  simp only [WakeWordMatcher.matchText, specFuzzyFind]
  rw [matchExactLoop_eq_none _ _ h, fuzzyOuter_eq_find]
  simp only [specBlendedScore_eq_calculateSimilarity]
  cases hfind : ((extractPotentialWakeWords (trimStr (lowerStr t))).flatMap
      (fun c => m.wakeWords.map (fun w => (c, w)))).find?
      (fun p => decide (m.threshold ≤ calculateSimilarity p.1.text p.2)) with
  | none => simp [hfind]
  | some p => simp [hfind]

/-- C2 witness input: "what a completely unrelated sentence" — no default
wake word occurs as a substring of its normalization. -/
theorem wake_match_fuzzy_refines_spec_witness :
    (∀ w ∈ defaultMatcher.wakeWords,
      substrIdx w (trimStr (lowerStr "completely unrelated".data)) = none) ∧
    defaultMatcher.matchText "completely unrelated".data =
      (specFuzzyFind defaultMatcher
          (trimStr (lowerStr "completely unrelated".data))).elim
        ⟨false, [], [], 0, "completely unrelated".data⟩
        (fun p => ⟨true, p.1.text, p.2, specBlendedScore p.1.text p.2,
          p.1.remaining⟩) :=
  ⟨by decide, wake_match_fuzzy_refines_spec defaultMatcher
    "completely unrelated".data (by decide)⟩

/-! Confidence bounds (C9). -/

theorem levenshteinDistance_le_max (a b : List Char) :
    levenshteinDistance a b ≤ max a.length b.length := by
  induction a, b using levenshteinDistance.induct with
  | case1 b => simp [levenshteinDistance]
  | case2 a h =>
    cases a with
    | nil => simp [levenshteinDistance]
    | cons x t => simp [levenshteinDistance]
  | case3 a y b ih =>
    simp only [levenshteinDistance, eq_self_iff_true, if_true, List.length_cons]
    omega
  | case4 x a y b hne ih1 ih2 ih3 =>
    simp only [levenshteinDistance, if_neg hne, List.length_cons]
    omega

theorem levenshteinSimilarity_bounds (a b : List Char) :
    0 ≤ levenshteinSimilarity a b ∧ levenshteinSimilarity a b ≤ 1 := by
  unfold levenshteinSimilarity
  by_cases hm : max a.length b.length = 0
  · simp [hm]
  · simp only [if_neg hm]
    have hd := levenshteinDistance_le_max a b
    have hmpos : (0 : ℚ) < ((max a.length b.length : ℕ) : ℚ) := by
      exact_mod_cast Nat.pos_of_ne_zero hm
    have hdiv1 : (levenshteinDistance a b : ℚ) / ((max a.length b.length : ℕ) : ℚ) ≤ 1 := by
      rw [div_le_one hmpos]; exact_mod_cast hd
    have hdiv0 : (0 : ℚ) ≤ (levenshteinDistance a b : ℚ) / ((max a.length b.length : ℕ) : ℚ) := by
      positivity
    constructor <;> linarith

theorem countPosMatches_le_left (a b : List Char) :
    countPosMatches a b ≤ a.length := by
  induction a generalizing b with
  | nil => simp [countPosMatches]
  | cons x xs ih =>
    cases b with
    | nil => simp [countPosMatches]
    | cons y ys =>
      have := ih ys
      simp only [countPosMatches, List.length_cons]
      split_ifs <;> omega

theorem phoneticSimilarity_bounds (a b : List Char) :
    0 ≤ phoneticSimilarity a b ∧ phoneticSimilarity a b ≤ 1 := by
  unfold phoneticSimilarity
  by_cases hc : phoneticCode a = phoneticCode b
  · simp [hc]
  · simp only [if_neg hc]
    have hmax : max (phoneticCode a).length (phoneticCode b).length ≠ 0 := by
      intro h0
      rcases Nat.max_eq_zero_iff.mp h0 with ⟨h1, h2⟩
      exact hc ((List.length_eq_zero.mp h1).trans (List.length_eq_zero.mp h2).symm)
    have hmpos : (0 : ℚ) <
        ((max (phoneticCode a).length (phoneticCode b).length : ℕ) : ℚ) := by
      exact_mod_cast Nat.pos_of_ne_zero hmax
    have hcount : countPosMatches (phoneticCode a) (phoneticCode b) ≤
        max (phoneticCode a).length (phoneticCode b).length :=
      le_trans (countPosMatches_le_left _ _) (le_max_left _ _)
    constructor
    · positivity
    · rw [div_le_one hmpos]; exact_mod_cast hcount

theorem calculateSimilarity_bounds (a b : List Char) :
    0 ≤ calculateSimilarity a b ∧ calculateSimilarity a b ≤ 1 := by
  obtain ⟨l0, l1⟩ := levenshteinSimilarity_bounds a b
  obtain ⟨p0, p1⟩ := phoneticSimilarity_bounds a b
  unfold calculateSimilarity
  dsimp only
  constructor <;> split_ifs <;> linarith

theorem matchExactLoop_some_confidence (s : List Char) (ws : List (List Char))
    (r : WakeWordMatch) (h : matchExactLoop s ws = some r) : r.confidence = 1 := by
  induction ws with
  | nil => simp [matchExactLoop] at h
  | cons w ws ih =>
    simp only [matchExactLoop] at h
    cases hidx : substrIdx w s with
    | some i =>
      rw [hidx] at h
      simp only [Option.some.injEq] at h
      rw [← h]
    | none =>
      rw [hidx] at h
      exact ih h

theorem fuzzyInner_some_confidence (c : Candidate) (θ : ℚ) (ws : List (List Char))
    (r : WakeWordMatch) (h : fuzzyInner c θ ws = some r) :
    0 ≤ r.confidence ∧ r.confidence ≤ 1 := by
  induction ws with
  | nil => simp [fuzzyInner] at h
  | cons w ws ih =>
    simp only [fuzzyInner] at h
    split at h
    · simp only [Option.some.injEq] at h
      rw [← h]
      exact calculateSimilarity_bounds c.text w
    · exact ih h

theorem fuzzyOuter_some_confidence (θ : ℚ) (ws : List (List Char))
    (cs : List Candidate) (r : WakeWordMatch) (h : fuzzyOuter θ ws cs = some r) :
    0 ≤ r.confidence ∧ r.confidence ≤ 1 := by
  induction cs with
  | nil => simp [fuzzyOuter] at h
  | cons c cs ih =>
    simp only [fuzzyOuter] at h
    cases hf : fuzzyInner c θ ws with
    | some r2 =>
      rw [hf] at h
      simp only [Option.some.injEq] at h
      rw [← h]
      exact fuzzyInner_some_confidence c θ ws r2 hf
    | none =>
      rw [hf] at h
      exact ih h

/-- C9: for every transcript, phrase set and threshold, the confidence
returned by match is in the closed interval [0, 1] — one on an exact
substring hit, the blended score (itself in [0, 1]) on a fuzzy hit, and
zero when not matched. -/
theorem wake_match_confidence_in_unit_interval (m : WakeWordMatcher)
    (t : List Char) :
    0 ≤ (m.matchText t).confidence ∧ (m.matchText t).confidence ≤ 1 := by
  simp only [WakeWordMatcher.matchText]
  cases he : matchExactLoop (trimStr (lowerStr t)) m.wakeWords with
  | some r =>
    have h1 := matchExactLoop_some_confidence _ _ _ he
    simp [h1]
  | none =>
    cases hf : fuzzyOuter m.threshold m.wakeWords
        (extractPotentialWakeWords (trimStr (lowerStr t))) with
    | some r =>
      have := fuzzyOuter_some_confidence _ _ _ _ hf
      simpa using this
    | none => simp

/-! The voice-activity detector: the VAD class of geminiLive.ts. -/

structure VADConfig where
  energyThreshold : ℚ
  speechStartFrames : Nat
  speechEndFrames : Nat
  frameSize : Nat
  sampleRate : Nat
deriving DecidableEq, Repr

/-- DEFAULT_VAD_CONFIG (threshold 0.02). -/
def DEFAULT_VAD_CONFIG : VADConfig :=
  ⟨1 / 50, 3, 15, 256, 16000⟩

inductive VState
  | silence
  | speech
deriving DecidableEq, Repr

inductive VEvent
  | speechStart
  | speech (chunk : List Nat)
  | speechEnd
deriving DecidableEq, Repr

/-- Mutable VAD state: hysteresis state, byte remainder buffer, and the
consecutive-frame counter. -/
structure VAD where
  state : VState
  buffer : List Nat
  consecutiveFrames : Nat
deriving DecidableEq, Repr

/-- The state of a freshly constructed VAD. -/
def VAD.initial : VAD := ⟨.silence, [], 0⟩

/-- VAD.reset: force silence, clear the remainder buffer and the counter. -/
def VAD.reset (_ : VAD) : VAD := ⟨.silence, [], 0⟩

/-- Buffer.readInt16LE on a little-endian byte pair. -/
def readInt16LE (b0 b1 : Nat) : Int :=
  let u := b0 % 256 + 256 * (b1 % 256)
  if 32768 ≤ u then (u : Int) - 65536 else (u : Int)

def toSamples : List Nat → List Int
  | b0 :: b1 :: rest => readInt16LE b0 b1 :: toSamples rest
  | _ => []

/-- Mean squared normalized sample value of a frame.  The source computes
RMS energy sqrt(sum/samples) and compares it with the threshold; we keep
the square to stay inside ℚ. -/
def calculateEnergySq (frame : List Nat) : ℚ :=
  let ss := toSamples frame
  ((ss.map (fun s => ((s : ℚ) / 32768) ^ 2)).sum) / (ss.length : ℚ)

/-- The frame classification energy > energyThreshold of VAD.process.  For
a nonnegative threshold (the default is 0.02) this equals comparing the
squares; a negative threshold is below any RMS value. -/
def frameIsSpeech (cfg : VADConfig) (frame : List Nat) : Bool :=
  if cfg.energyThreshold < 0 then true
  else decide (cfg.energyThreshold ^ 2 < calculateEnergySq frame)

/-- VAD.updateState: hysteresis transitions and event emission for one
frame classification; the chunk argument is the whole process() chunk. -/
def VAD.updateState (cfg : VADConfig) (isSpeech : Bool) (chunk : List Nat)
    (v : VAD) : VAD × List VEvent :=
  match v.state with
  | .silence =>
    if isSpeech then
      if cfg.speechStartFrames ≤ v.consecutiveFrames + 1 then
        (⟨.speech, v.buffer, 0⟩, [.speechStart, .speech chunk])
      else
        (⟨.silence, v.buffer, v.consecutiveFrames + 1⟩, [])
    else
      (⟨.silence, v.buffer, 0⟩, [])
  | .speech =>
    if !isSpeech then
      if cfg.speechEndFrames ≤ v.consecutiveFrames + 1 then
        (⟨.silence, v.buffer, 0⟩, [.speech chunk, .speechEnd])
      else
        (⟨.speech, v.buffer, v.consecutiveFrames + 1⟩, [.speech chunk])
    else
      (⟨.speech, v.buffer, 0⟩, [.speech chunk])

/-- The frame-splitting while loop of VAD.process, fuel-bounded by the
buffer length (each iteration consumes at least one byte). -/
def splitFramesAux (bpf : Nat) : Nat → List Nat → List (List Nat) × List Nat
  | 0, buf => ([], buf)
  | fuel + 1, buf =>
    if 0 < bpf ∧ bpf ≤ buf.length then
      let fr := splitFramesAux bpf fuel (buf.drop bpf)
      (buf.take bpf :: fr.1, fr.2)
    else ([], buf)

/-- Complete frames of bytesPerFrame bytes split off the front of the
buffer, with the incomplete remainder kept for the next call. -/
def splitFrames (bpf : Nat) (buf : List Nat) : List (List Nat) × List Nat :=
  splitFramesAux bpf buf.length buf

/-- Folding VAD.updateState over the complete frames of one chunk. -/
def stepFrames (cfg : VADConfig) (chunk : List Nat) :
    VAD → List (List Nat) → VAD × List VEvent
  | v, [] => (v, [])
  | v, f :: fs =>
    let r1 := VAD.updateState cfg (frameIsSpeech cfg f) chunk v
    let r2 := stepFrames cfg chunk r1.1 fs
    (r2.1, r1.2 ++ r2.2)

/-- VAD.process: append the chunk to the remainder buffer, split into
complete frames, classify and update state per frame. -/
def VAD.process (cfg : VADConfig) (chunk : List Nat) (v : VAD) :
    VAD × List VEvent :=
  let fr := splitFrames (cfg.frameSize * 2) (v.buffer ++ chunk)
  stepFrames cfg chunk ⟨v.state, fr.2, v.consecutiveFrames⟩ fr.1

/-- A sequence of process() calls, accumulating emitted events. -/
def VAD.processAll (cfg : VADConfig) : VAD → List (List Nat) → VAD × List VEvent
  | v, [] => (v, [])
  | v, c :: cs =>
    let r1 := VAD.process cfg c v
    let r2 := VAD.processAll cfg r1.1 cs
    (r2.1, r1.2 ++ r2.2)

def countStarts : List VEvent → Nat
  | [] => 0
  | .speechStart :: rest => countStarts rest + 1
  | _ :: rest => countStarts rest

def countEnds : List VEvent → Nat
  | [] => 0
  | .speechEnd :: rest => countEnds rest + 1
  | _ :: rest => countEnds rest

/-- One when in speech, zero in silence. -/
def stateBit : VState → Nat
  | .speech => 1
  | .silence => 0

theorem countStarts_append (a b : List VEvent) :
    countStarts (a ++ b) = countStarts a + countStarts b := by
  induction a with
  | nil => simp [countStarts]
  | cons e rest ih => cases e <;> simp [countStarts, ih] <;> omega

theorem countEnds_append (a b : List VEvent) :
    countEnds (a ++ b) = countEnds a + countEnds b := by
  induction a with
  | nil => simp [countEnds]
  | cons e rest ih => cases e <;> simp [countEnds, ih] <;> omega

theorem updateState_count (cfg : VADConfig) (isSp : Bool) (chunk : List Nat)
    (v : VAD) :
    countStarts (VAD.updateState cfg isSp chunk v).2 + stateBit v.state =
      countEnds (VAD.updateState cfg isSp chunk v).2 +
        stateBit (VAD.updateState cfg isSp chunk v).1.state := by
  rcases v with ⟨st, buf, cf⟩
  cases st <;> cases isSp <;>
    simp only [VAD.updateState, Bool.not_true, Bool.not_false] <;>
    split_ifs <;> simp [countStarts, countEnds, stateBit]

theorem stepFrames_count (cfg : VADConfig) (chunk : List Nat)
    (fs : List (List Nat)) (v : VAD) :
    countStarts (stepFrames cfg chunk v fs).2 + stateBit v.state =
      countEnds (stepFrames cfg chunk v fs).2 +
        stateBit (stepFrames cfg chunk v fs).1.state := by
  induction fs generalizing v with
  | nil => simp [stepFrames, countStarts, countEnds]
  | cons f fs ih =>
    simp only [stepFrames, countStarts_append, countEnds_append]
    have h1 := updateState_count cfg (frameIsSpeech cfg f) chunk v
    have h2 := ih (VAD.updateState cfg (frameIsSpeech cfg f) chunk v).1
    omega

theorem process_count (cfg : VADConfig) (chunk : List Nat) (v : VAD) :
    countStarts (VAD.process cfg chunk v).2 + stateBit v.state =
      countEnds (VAD.process cfg chunk v).2 +
        stateBit (VAD.process cfg chunk v).1.state := by
  simp only [VAD.process]
  exact stepFrames_count cfg chunk _ _

theorem processAll_count (cfg : VADConfig) (chunks : List (List Nat)) (v : VAD) :
    countStarts (VAD.processAll cfg v chunks).2 + stateBit v.state =
      countEnds (VAD.processAll cfg v chunks).2 +
        stateBit (VAD.processAll cfg v chunks).1.state := by
  induction chunks generalizing v with
  | nil => simp [VAD.processAll, countStarts, countEnds]
  | cons c cs ih =>
    simp only [VAD.processAll, countStarts_append, countEnds_append]
    have h1 := process_count cfg c v
    have h2 := ih (VAD.process cfg c v).1
    omega

/-- C4: over any sequence of process() calls from a fresh (equivalently,
just-reset) VAD, speech-start events exceed speech-end events by the state
bit of the final state: never by more than one, and by exactly one iff the
final state is Speech.  Also, reset always restores the fresh state. -/
theorem vad_start_end_balance (cfg : VADConfig) (chunks : List (List Nat)) :
    countStarts (VAD.processAll cfg VAD.initial chunks).2 =
        countEnds (VAD.processAll cfg VAD.initial chunks).2 +
          stateBit (VAD.processAll cfg VAD.initial chunks).1.state ∧
      countStarts (VAD.processAll cfg VAD.initial chunks).2 ≤
        countEnds (VAD.processAll cfg VAD.initial chunks).2 + 1 ∧
      (countStarts (VAD.processAll cfg VAD.initial chunks).2 =
          countEnds (VAD.processAll cfg VAD.initial chunks).2 + 1 ↔
        (VAD.processAll cfg VAD.initial chunks).1.state = .speech) ∧
      ∀ w : VAD, VAD.reset w = VAD.initial := by
  have h := processAll_count cfg chunks VAD.initial
  have h0 : stateBit VAD.initial.state = 0 := rfl
  rw [h0] at h
  have hb : ∀ s : VState, stateBit s ≤ 1 := by
    intro s
    cases s <;> simp [stateBit]
  refine ⟨by omega, ?_, ?_, fun w => rfl⟩
  · have := hb (VAD.processAll cfg VAD.initial chunks).1.state
    omega
  · cases hs : (VAD.processAll cfg VAD.initial chunks).1.state with
    | silence =>
      rw [hs] at h
      simp only [stateBit] at h
      constructor
      · intro h2
        exfalso
        omega
      · intro h2
        exact absurd h2 (by simp)
    | speech =>
      rw [hs] at h
      simp only [stateBit] at h
      constructor
      · intro _
        rfl
      · intro _
        omega

/-! Entry hysteresis (C3): runs of consecutive above-threshold frames. -/

/-- Folding VAD.updateState over a list of pre-classified frames, each
paired with the chunk it came from. -/
def runFrames (cfg : VADConfig) : VAD → List (Bool × List Nat) → VAD × List VEvent
  | v, [] => (v, [])
  | v, p :: ps =>
    let r1 := VAD.updateState cfg p.1 p.2 v
    let r2 := runFrames cfg r1.1 ps
    (r2.1, r1.2 ++ r2.2)

/-- Whether, starting in silence with counter c, the classification stream
reaches the entry threshold: the recursion mirrors the counter updates of
VAD.updateState. -/
def triggersAt (N : Nat) : Nat → List Bool → Bool
  | _, [] => false
  | c, true :: bs => if N ≤ c + 1 then true else triggersAt N (c + 1) bs
  | _, false :: bs => triggersAt N 0 bs

/-- The classification stream contains N consecutive speech frames. -/
def hasRun (N : Nat) (bs : List Bool) : Prop :=
  ∃ l m r, bs = l ++ m ++ r ∧ m.length = N ∧ ∀ b ∈ m, b = true

theorem hasRun_cons (N : Nat) (b : Bool) (bs : List Bool) (h : hasRun N bs) :
    hasRun N (b :: bs) := by
  obtain ⟨l, m, r, hbs, hlen, htrue⟩ := h
  exact ⟨b :: l, m, r, by simp [hbs], hlen, htrue⟩

theorem prefix_true_hasRun (N : Nat) (bs p q : List Bool) (hbs : bs = p ++ q)
    (hp : ∀ b ∈ p, b = true) (hl : N ≤ p.length) : hasRun N bs := by
  refine ⟨[], p.take N, p.drop N ++ q, ?_, ?_, ?_⟩
  · simp [hbs, ← List.append_assoc, List.take_append_drop]
  · simp only [List.length_take]
    omega
  · intro b hb
    exact hp b (List.mem_of_mem_take hb)

theorem runFrames_silence_no_trigger (cfg : VADConfig)
    (ps : List (Bool × List Nat)) (c : Nat) (buf : List Nat)
    (h : triggersAt cfg.speechStartFrames c (ps.map Prod.fst) = false) :
    ∃ c2, runFrames cfg ⟨.silence, buf, c⟩ ps = (⟨.silence, buf, c2⟩, []) := by
  induction ps generalizing c with
  | nil => exact ⟨c, rfl⟩
  | cons p ps ih =>
    obtain ⟨b, ch⟩ := p
    cases b with
    | false =>
      simp only [List.map_cons, triggersAt] at h
      obtain ⟨c2, hc2⟩ := ih 0 h
      exact ⟨c2, by simp [runFrames, VAD.updateState, hc2]⟩
    | true =>
      simp only [List.map_cons, triggersAt] at h
      by_cases hle : cfg.speechStartFrames ≤ c + 1
      · rw [if_pos hle] at h
        exact absurd h (by simp)
      · rw [if_neg hle] at h
        obtain ⟨c2, hc2⟩ := ih (c + 1) h
        exact ⟨c2, by simp [runFrames, VAD.updateState, hle, hc2]⟩

theorem runFrames_silence_trigger (cfg : VADConfig)
    (ps : List (Bool × List Nat)) (c : Nat) (buf : List Nat)
    (h : triggersAt cfg.speechStartFrames c (ps.map Prod.fst) = true) :
    VEvent.speechStart ∈ (runFrames cfg ⟨.silence, buf, c⟩ ps).2 := by
  induction ps generalizing c with
  | nil => simp [triggersAt] at h
  | cons p ps ih =>
    obtain ⟨b, ch⟩ := p
    cases b with
    | false =>
      simp only [List.map_cons, triggersAt] at h
      have hm := ih 0 h
      simpa [runFrames, VAD.updateState] using hm
    | true =>
      simp only [List.map_cons, triggersAt] at h
      by_cases hle : cfg.speechStartFrames ≤ c + 1
      · simp [runFrames, VAD.updateState, hle]
      · rw [if_neg hle] at h
        have hm := ih (c + 1) h
        simpa [runFrames, VAD.updateState, hle] using hm

theorem triggersAt_imp_run (N : Nat) (bs : List Bool) (c : Nat)
    (h : triggersAt N c bs = true) :
    (∃ p q, bs = p ++ q ∧ (∀ b ∈ p, b = true) ∧ N ≤ c + p.length) ∨
      hasRun N bs := by
  induction bs generalizing c with
  | nil => simp [triggersAt] at h
  | cons b bs ih =>
    cases b with
    | true =>
      simp only [triggersAt] at h
      by_cases hle : N ≤ c + 1
      · left
        exact ⟨[true], bs, rfl, by simp, by simpa using hle⟩
      · rw [if_neg hle] at h
        rcases ih (c + 1) h with hpre | hrun
        · obtain ⟨p, q, hbs, hp, hl⟩ := hpre
          left
          refine ⟨true :: p, q, by simp [hbs], ?_, ?_⟩
          · intro x hx
            rcases List.mem_cons.mp hx with h1 | h2
            · exact h1
            · exact hp x h2
          · simp only [List.length_cons]
            omega
        · right
          exact hasRun_cons N true bs hrun
    | false =>
      simp only [triggersAt] at h
      rcases ih 0 h with hpre | hrun
      · obtain ⟨p, q, hbs, hp, hl⟩ := hpre
        right
        exact hasRun_cons N false bs
          (prefix_true_hasRun N bs p q hbs hp (by omega))
      · right
        exact hasRun_cons N false bs hrun

theorem triggersAt_of_true_seg (N : Nat) (m q : List Bool) (c : Nat)
    (hm : ∀ b ∈ m, b = true) (hne : m ≠ []) (hlen : N ≤ c + m.length) :
    triggersAt N c (m ++ q) = true := by
  induction m generalizing c with
  | nil => exact absurd rfl hne
  | cons b m ih =>
    have hb : b = true := hm b (List.mem_cons_self b m)
    subst hb
    simp only [List.cons_append, triggersAt]
    by_cases hle : N ≤ c + 1
    · rw [if_pos hle]
    · rw [if_neg hle]
      have hne2 : m ≠ [] := by
        intro hm0
        subst hm0
        simp only [List.length_cons, List.length_nil] at hlen
        omega
      refine ih (c + 1) (fun x hx => hm x (List.mem_cons_of_mem _ hx)) hne2 ?_
      simp only [List.length_cons] at hlen
      omega

theorem run_imp_triggersAt (N : Nat) (hN : 0 < N) (bs : List Bool) (c : Nat)
    (h : hasRun N bs) : triggersAt N c bs = true := by
  obtain ⟨l, m, r, hbs, hlen, htrue⟩ := h
  subst hbs
  induction l generalizing c with
  | nil =>
    simp only [List.nil_append]
    refine triggersAt_of_true_seg N m r c htrue ?_ (by omega)
    intro hm0
    rw [hm0] at hlen
    simp at hlen
    omega
  | cons b l ih =>
    simp only [List.cons_append]
    cases b with
    | true =>
      simp only [triggersAt]
      by_cases hle : N ≤ c + 1
      · rw [if_pos hle]
      · rw [if_neg hle]
        exact ih (c + 1)
    | false =>
      simp only [triggersAt]
      exact ih 0

/-- C3: in Silence, a below-threshold frame resets the consecutive
counter and emits nothing; the frame that completes speechStartFrames
consecutive speech frames flips the state to Speech and emits speech-start
immediately followed by a speech event carrying the triggering chunk; a
frame that does not yet complete the count only increments the counter;
and over any classified frame stream from the fresh state, speech-start is
emitted if and only if the stream contains speechStartFrames consecutive
above-threshold frames. -/
theorem vad_entry_hysteresis (cfg : VADConfig)
    (hN : 0 < cfg.speechStartFrames)
    (v₁ : VAD) (hv₁ : v₁.state = .silence) (ch₁ : List Nat)
    (v₂ : VAD) (hv₂ : v₂.state = .silence) (ch₂ : List Nat)
    (hc₂ : cfg.speechStartFrames ≤ v₂.consecutiveFrames + 1)
    (v₃ : VAD) (hv₃ : v₃.state = .silence) (ch₃ : List Nat)
    (hc₃ : v₃.consecutiveFrames + 1 < cfg.speechStartFrames)
    (ps : List (Bool × List Nat)) :
    VAD.updateState cfg false ch₁ v₁ = (⟨.silence, v₁.buffer, 0⟩, []) ∧
      VAD.updateState cfg true ch₂ v₂ =
        (⟨.speech, v₂.buffer, 0⟩, [.speechStart, .speech ch₂]) ∧
      VAD.updateState cfg true ch₃ v₃ =
        (⟨.silence, v₃.buffer, v₃.consecutiveFrames + 1⟩, []) ∧
      (VEvent.speechStart ∈ (runFrames cfg VAD.initial ps).2 ↔
        hasRun cfg.speechStartFrames (ps.map Prod.fst)) := by
  have h3 := Nat.not_le.mpr hc₃
  refine ⟨?_, ?_, ?_, ?_⟩
  · simp [VAD.updateState, hv₁]
  · simp [VAD.updateState, hv₂, hc₂]
  · simp [VAD.updateState, hv₃, h3]
  · constructor
    · intro hmem
      by_cases ht : triggersAt cfg.speechStartFrames 0 (ps.map Prod.fst) = true
      · rcases triggersAt_imp_run cfg.speechStartFrames (ps.map Prod.fst) 0 ht
          with hpre | hrun
        · obtain ⟨p, q, hbs, hp, hl⟩ := hpre
          exact prefix_true_hasRun cfg.speechStartFrames (ps.map Prod.fst) p q
            hbs hp (by omega)
        · exact hrun
      · obtain ⟨c2, hc2⟩ := runFrames_silence_no_trigger cfg ps 0 []
          (by simpa using ht)
        rw [show VAD.initial = (⟨.silence, [], 0⟩ : VAD) from rfl, hc2] at hmem
        simp at hmem
    · intro hrun
      exact runFrames_silence_trigger cfg ps 0 []
        (run_imp_triggersAt cfg.speechStartFrames hN (ps.map Prod.fst) 0 hrun)

/-- Witness for the C3 theorem at the default configuration and concrete
states and frame streams. -/
theorem vad_entry_hysteresis_witness :
    (0 < DEFAULT_VAD_CONFIG.speechStartFrames ∧
      (⟨.silence, [], 0⟩ : VAD).state = .silence ∧
      (⟨.silence, [], 2⟩ : VAD).state = .silence ∧
      DEFAULT_VAD_CONFIG.speechStartFrames ≤ 2 + 1 ∧
      0 + 1 < DEFAULT_VAD_CONFIG.speechStartFrames) ∧
    (VAD.updateState DEFAULT_VAD_CONFIG false [0] ⟨.silence, [], 0⟩ =
        (⟨.silence, [], 0⟩, []) ∧
      VAD.updateState DEFAULT_VAD_CONFIG true [0] ⟨.silence, [], 2⟩ =
        (⟨.speech, [], 0⟩, [.speechStart, .speech [0]]) ∧
      VAD.updateState DEFAULT_VAD_CONFIG true [0] ⟨.silence, [], 0⟩ =
        (⟨.silence, [], 0 + 1⟩, []) ∧
      (VEvent.speechStart ∈
          (runFrames DEFAULT_VAD_CONFIG VAD.initial
            [(true, [7]), (true, [7]), (true, [7])]).2 ↔
        hasRun DEFAULT_VAD_CONFIG.speechStartFrames
          ([(true, [7]), (true, [7]), (true, [7])].map Prod.fst))) :=
  ⟨⟨by decide, rfl, rfl, by decide, by decide⟩,
    vad_entry_hysteresis DEFAULT_VAD_CONFIG (by decide)
      ⟨.silence, [], 0⟩ rfl [0]
      ⟨.silence, [], 2⟩ rfl [0] (by decide)
      ⟨.silence, [], 0⟩ rfl [0] (by decide)
      [(true, [7]), (true, [7]), (true, [7])]⟩

/-! Speech-state re-emission (C5). -/

/-- A small configuration (1-sample frames, zero threshold) used to
exercise the chunk re-emission behavior on concrete inputs. -/
def vadTinyCfg : VADConfig := ⟨0, 1, 15, 1, 16000⟩

/-- C5 counterexample: enter Speech via one loud two-byte chunk (one
complete frame), then process a one-byte chunk.  The byte is only
buffered — no complete frame, so no speech event is emitted although the
VAD is in the Speech state, refuting "every chunk is re-emitted". -/
theorem vad_speech_reemission_counterexample :
    (VAD.process vadTinyCfg [0, 64] VAD.initial).1.state = VState.speech ∧
      (VAD.process vadTinyCfg [0]
          (VAD.process vadTinyCfg [0, 64] VAD.initial).1).2 = [] := by
  have h1 : frameIsSpeech vadTinyCfg [0, 64] = true := by
    norm_num [frameIsSpeech, calculateEnergySq, toSamples, readInt16LE, vadTinyCfg]
  have h1x : frameIsSpeech ⟨0, 1, 15, 1, 16000⟩ [0, 64] = true := h1
  have h2 : VAD.process vadTinyCfg [0, 64] VAD.initial =
      (⟨.speech, [], 0⟩, [.speechStart, .speech [0, 64]]) := by
    norm_num [VAD.process, VAD.initial, splitFrames, splitFramesAux, stepFrames,
      VAD.updateState, h1, h1x, vadTinyCfg]
  rw [h2]
  refine ⟨rfl, ?_⟩
  norm_num [VAD.process, splitFrames, splitFramesAux, stepFrames, vadTinyCfg]

theorem stepFrames_speech_head_mem (cfg : VADConfig) (chunk : List Nat)
    (v : VAD) (fs : List (List Nat)) (hv : v.state = .speech) (hfs : fs ≠ []) :
    VEvent.speech chunk ∈ (stepFrames cfg chunk v fs).2 := by
  cases fs with
  | nil => exact absurd rfl hfs
  | cons f fs =>
    rcases v with ⟨st, buf, cf⟩
    obtain rfl : st = .speech := hv
    cases hsp : frameIsSpeech cfg f <;>
      simp only [stepFrames, VAD.updateState, hsp, Bool.not_true, Bool.not_false,
        if_true, if_false, Bool.false_eq_true, List.mem_append] <;>
      (try split_ifs) <;> simp

/-- C5 amended: while in Speech, a speech frame re-emits the chunk and
resets the exit counter; a silent frame re-emits the chunk and, on
completing speechEndFrames consecutive silent frames, transitions to
Silence and emits speech-end (otherwise it only increments the counter);
and every process() call that completes at least one frame while in
Speech re-emits its chunk as a speech event.  Chunks that complete no
frame are only buffered, which is the one correction to the claim. -/
theorem vad_speech_reemission_amended (cfg : VADConfig)
    (v₁ : VAD) (hv₁ : v₁.state = .speech) (ch₁ : List Nat)
    (v₂ : VAD) (hv₂ : v₂.state = .speech) (ch₂ : List Nat)
    (hc₂ : cfg.speechEndFrames ≤ v₂.consecutiveFrames + 1)
    (v₃ : VAD) (hv₃ : v₃.state = .speech) (ch₃ : List Nat)
    (hc₃ : v₃.consecutiveFrames + 1 < cfg.speechEndFrames)
    (v₄ : VAD) (hv₄ : v₄.state = .speech) (ch₄ : List Nat)
    (hf : (splitFrames (cfg.frameSize * 2) (v₄.buffer ++ ch₄)).1 ≠ []) :
    VAD.updateState cfg true ch₁ v₁ = (⟨.speech, v₁.buffer, 0⟩, [.speech ch₁]) ∧
      VAD.updateState cfg false ch₂ v₂ =
        (⟨.silence, v₂.buffer, 0⟩, [.speech ch₂, .speechEnd]) ∧
      VAD.updateState cfg false ch₃ v₃ =
        (⟨.speech, v₃.buffer, v₃.consecutiveFrames + 1⟩, [.speech ch₃]) ∧
      VEvent.speech ch₄ ∈ (VAD.process cfg ch₄ v₄).2 := by
  have h3 := Nat.not_le.mpr hc₃
  refine ⟨?_, ?_, ?_, ?_⟩
  · simp [VAD.updateState, hv₁]
  · simp [VAD.updateState, hv₂, hc₂]
  · simp [VAD.updateState, hv₃, h3]
  · unfold VAD.process
    exact stepFrames_speech_head_mem cfg ch₄ _ _ hv₄ hf

/-- Witness for the amended C5 theorem at concrete states and chunks. -/
theorem vad_speech_reemission_amended_witness :
    ((⟨.speech, [], 0⟩ : VAD).state = .speech ∧
      (⟨.speech, [], 14⟩ : VAD).state = .speech ∧
      vadTinyCfg.speechEndFrames ≤ 14 + 1 ∧
      0 + 1 < vadTinyCfg.speechEndFrames ∧
      (splitFrames (vadTinyCfg.frameSize * 2)
          ((⟨.speech, [], 0⟩ : VAD).buffer ++ [0, 64])).1 ≠ []) ∧
    (VAD.updateState vadTinyCfg true [9] ⟨.speech, [], 0⟩ =
        (⟨.speech, [], 0⟩, [.speech [9]]) ∧
      VAD.updateState vadTinyCfg false [9] ⟨.speech, [], 14⟩ =
        (⟨.silence, [], 0⟩, [.speech [9], .speechEnd]) ∧
      VAD.updateState vadTinyCfg false [9] ⟨.speech, [], 0⟩ =
        (⟨.speech, [], 0 + 1⟩, [.speech [9]]) ∧
      VEvent.speech [0, 64] ∈
        (VAD.process vadTinyCfg [0, 64] ⟨.speech, [], 0⟩).2) :=
  ⟨⟨rfl, rfl, by decide, by decide, by decide⟩,
    vad_speech_reemission_amended vadTinyCfg
      ⟨.speech, [], 0⟩ rfl [9]
      ⟨.speech, [], 14⟩ rfl [9] (by decide)
      ⟨.speech, [], 0⟩ rfl [9] (by decide)
      ⟨.speech, [], 0⟩ rfl [0, 64] (by decide)⟩

/-! The streaming-recognition session wrapper: GoogleSpeechService from
googleSpeech.ts.  The provider connection is abstracted: the sent log
records audio chunks successfully written to the open stream, and
openCount counts provider-side sessions currently open. -/

structure GSState where
  client : Bool
  stream : Bool
  isStreaming : Bool
  reconnectTimer : Bool
  pendingAudio : List (List Nat)
  sent : List (List Nat)
  openCount : Nat
deriving DecidableEq, Repr

/-- The state of a freshly constructed GoogleSpeechService. -/
def GSState.fresh : GSState := ⟨false, false, false, false, [], [], 0⟩

/-- GoogleSpeechService.initialize: establish the client. -/
def GSState.initClient (s : GSState) : GSState := { s with client := true }

/-- GoogleSpeechService.stopStream: cancel the reconnect timer, end the
stream if open, clear the streaming flag; safe from any state. -/
def GSState.stopStream (s : GSState) : GSState :=
  { s with
    reconnectTimer := false
    stream := false
    isStreaming := false
    openCount := if s.stream then s.openCount - 1 else s.openCount }

/-- GoogleSpeechService.write: with no open session, append to the
pending buffer and drop the oldest entry once 100 is exceeded; with an
open session, skip empty chunks and forward the rest. -/
def GSState.write (s : GSState) (chunk : List Nat) : GSState :=
  if !(s.isStreaming && s.stream) then
    let p := s.pendingAudio ++ [chunk]
    { s with pendingAudio := if 100 < p.length then p.tail else p }
  else if chunk = [] then s
  else { s with sent := s.sent ++ [chunk] }

/-- The while loop of GoogleSpeechService.flushPendingAudio, fuel-bounded
by the buffer length (each iteration shifts one chunk). -/
def GSState.flushLoop : Nat → GSState → GSState
  | 0, s => s
  | fuel + 1, s =>
    if s.isStreaming && s.stream then
      match s.pendingAudio with
      | [] => s
      | c :: rest => GSState.flushLoop fuel (GSState.write { s with pendingAudio := rest } c)
    else s

/-- GoogleSpeechService.flushPendingAudio. -/
def GSState.flushPending (s : GSState) : GSState :=
  GSState.flushLoop s.pendingAudio.length s

/-- GoogleSpeechService.startStream: throws when not initialized (state
unchanged); otherwise tears down any existing session first, opens a new
one, schedules the reconnect timer, and flushes the pending buffer. -/
def GSState.startStream (s : GSState) : GSState × Option String :=
  if !s.client then
    (s, some "GoogleSpeechService not initialized. Call initialize() first.")
  else
    let s1 := if s.stream then s.stopStream else s
    let s2 := { s1 with
      stream := true
      isStreaming := true
      openCount := s1.openCount + 1
      reconnectTimer := true }
    (s2.flushPending, none)

inductive GSOp
  | initOp
  | startOp
  | writeOp (chunk : List Nat)
  | stopOp
deriving DecidableEq, Repr

def GSState.runOp (s : GSState) : GSOp → GSState
  | .initOp => s.initClient
  | .startOp => s.startStream.1
  | .writeOp c => s.write c
  | .stopOp => s.stopStream

def GSState.runOps : GSState → List GSOp → GSState
  | s, [] => s
  | s, op :: ops => GSState.runOps (s.runOp op) ops

/-- The session invariant: the ghost count of provider-side open sessions
matches the presence of the stream reference. -/
def GSInv (s : GSState) : Prop := s.openCount = (if s.stream then 1 else 0)

theorem write_fields (s : GSState) (c : List Nat) :
    (s.write c).client = s.client ∧ (s.write c).stream = s.stream ∧
      (s.write c).isStreaming = s.isStreaming ∧
      (s.write c).openCount = s.openCount ∧
      (s.write c).reconnectTimer = s.reconnectTimer := by
  simp only [GSState.write]
  split_ifs <;> simp

theorem flushLoop_fields (fuel : Nat) (s : GSState) :
    (GSState.flushLoop fuel s).client = s.client ∧
      (GSState.flushLoop fuel s).stream = s.stream ∧
      (GSState.flushLoop fuel s).isStreaming = s.isStreaming ∧
      (GSState.flushLoop fuel s).openCount = s.openCount ∧
      (GSState.flushLoop fuel s).reconnectTimer = s.reconnectTimer := by
  induction fuel generalizing s with
  | zero => exact ⟨rfl, rfl, rfl, rfl, rfl⟩
  | succ fuel ih =>
    cases hb : (s.isStreaming && s.stream) with
    | false => simp [GSState.flushLoop, hb]
    | true =>
      cases hp : s.pendingAudio with
      | nil => simp [GSState.flushLoop, hb, hp]
      | cons c rest =>
        have hw := write_fields { s with pendingAudio := rest } c
        have hl := ih (GSState.write { s with pendingAudio := rest } c)
        simp only [GSState.flushLoop, hb, hp, if_true]
        refine ⟨?_, ?_, ?_, ?_, ?_⟩ <;> simp_all

/-- Full characterization of the flush loop on an open stream: the
pending buffer is drained in order; empty chunks are skipped. -/
theorem flushLoop_spec (fuel : Nat) (s : GSState)
    (hfuel : s.pendingAudio.length ≤ fuel)
    (hs : s.isStreaming = true) (hst : s.stream = true) :
    GSState.flushLoop fuel s =
      { s with
        pendingAudio := []
        sent := s.sent ++ s.pendingAudio.filter (fun c => !c.isEmpty) } := by
  induction fuel generalizing s with
  | zero =>
    cases hp : s.pendingAudio with
    | nil =>
      simp [GSState.flushLoop, hp]
      rw [← hp]
    | cons c rest =>
      rw [hp] at hfuel
      simp at hfuel
  | succ fuel ih =>
    have hb : (s.isStreaming && s.stream) = true := by simp [hs, hst]
    cases hp : s.pendingAudio with
    | nil =>
      simp [GSState.flushLoop, hb, hp]
      rw [← hp]
    | cons c rest =>
      rw [hp] at hfuel
      simp only [List.length_cons] at hfuel
      simp only [GSState.flushLoop, hb, hp, if_true]
      by_cases hc : c = []
      · subst hc
        have hw : GSState.write { s with pendingAudio := rest } [] =
            { s with pendingAudio := rest } := by
          simp [GSState.write, hs, hst]
        rw [hw, ih { s with pendingAudio := rest } (by simpa using hfuel) hs hst]
        simp [List.filter, List.isEmpty]
      · have hw : GSState.write { s with pendingAudio := rest } c =
            { s with pendingAudio := rest, sent := s.sent ++ [c] } := by
          simp [GSState.write, hs, hst, hc]
        rw [hw, ih { s with pendingAudio := rest, sent := s.sent ++ [c] }
          (by simpa using hfuel) hs hst]
        have hcne : (!c.isEmpty) = true := by
          cases c with
          | nil => exact absurd rfl hc
          | cons x xs => rfl
        simp [List.filter, hcne]

theorem runOp_inv (s : GSState) (op : GSOp) (h : GSInv s) : GSInv (s.runOp op) := by
  cases op with
  | initOp => simpa [GSState.runOp, GSState.initClient, GSInv] using h
  | writeOp c =>
    have hw := write_fields s c
    simp only [GSInv, GSState.runOp] at h ⊢
    simp only [hw.2.2.2.1, hw.2.1]
    exact h
  | stopOp =>
    simp only [GSInv, GSState.runOp, GSState.stopStream] at *
    split_ifs at h <;> simp_all
  | startOp =>
    have key : ∀ t : GSState, t.openCount = 0 →
        GSInv (GSState.flushPending
          { t with
            stream := true
            isStreaming := true
            openCount := t.openCount + 1
            reconnectTimer := true }) := by
      intro t ht
      have hfl := flushLoop_fields
        ({ t with
            stream := true
            isStreaming := true
            openCount := t.openCount + 1
            reconnectTimer := true }).pendingAudio.length
        { t with
            stream := true
            isStreaming := true
            openCount := t.openCount + 1
            reconnectTimer := true }
      simp only [GSInv, GSState.flushPending]
      simp only [hfl.2.2.2.1, hfl.2.1]
      simp [ht]
    simp only [GSInv, GSState.runOp, GSState.startStream] at h ⊢
    cases hc : s.client with
    | false => simpa [hc] using h
    | true =>
      simp only [hc, Bool.not_true, Bool.false_eq_true, if_false]
      have h1 : (if s.stream = true then s.stopStream else s).openCount = 0 := by
        split_ifs with hstr
        · simp [GSState.stopStream, hstr, h]
        · rw [h]
          simp [hstr]
      exact key _ h1

theorem runOps_inv (ops : List GSOp) (s : GSState) (h : GSInv s) :
    GSInv (GSState.runOps s ops) := by
  induction ops generalizing s with
  | nil => exact h
  | cons op ops ih => exact ih (s.runOp op) (runOp_inv s op h)

/-- C7: startStream with a session already open equals tearing the old
session down first and then starting fresh, and across every op sequence
from a fresh service at most one provider session is ever open. -/
theorem gs_single_open_session (ops : List GSOp) (s : GSState)
    (h1 : s.client = true) (h2 : s.stream = true) :
    GSState.startStream s = GSState.startStream s.stopStream ∧
      (GSState.runOps GSState.fresh ops).openCount ≤ 1 := by
  constructor
  · simp [GSState.startStream, GSState.stopStream, h1, h2]
  · have h := runOps_inv ops GSState.fresh (by simp [GSInv, GSState.fresh])
    simp only [GSInv] at h
    rw [h]
    split_ifs <;> omega

/-- Witness for the C7 theorem at a concrete open-session state and a
concrete op sequence. -/
theorem gs_single_open_session_witness :
    ((⟨true, true, true, true, [], [], 1⟩ : GSState).client = true ∧
      (⟨true, true, true, true, [], [], 1⟩ : GSState).stream = true) ∧
    (GSState.startStream ⟨true, true, true, true, [], [], 1⟩ =
        GSState.startStream (GSState.stopStream ⟨true, true, true, true, [], [], 1⟩) ∧
      (GSState.runOps GSState.fresh
          [.initOp, .startOp, .writeOp [1], .startOp, .stopOp]).openCount ≤ 1) :=
  ⟨⟨rfl, rfl⟩,
    gs_single_open_session [.initOp, .startOp, .writeOp [1], .startOp, .stopOp]
      ⟨true, true, true, true, [], [], 1⟩ rfl rfl⟩

/-- C10: startStream before initialize() throws the not-initialized error
and leaves the state untouched — no session, no streaming flag, no
reconnect timer. -/
theorem gs_startStream_uninitialized (s : GSState) (h : s.client = false) :
    GSState.startStream s =
      (s, some "GoogleSpeechService not initialized. Call initialize() first.") := by
  simp [GSState.startStream, h]

/-- Witness for C10 at the fresh state. -/
theorem gs_startStream_uninitialized_witness :
    GSState.fresh.client = false ∧
      GSState.startStream GSState.fresh =
        (GSState.fresh,
          some "GoogleSpeechService not initialized. Call initialize() first.") :=
  ⟨rfl, gs_startStream_uninitialized GSState.fresh rfl⟩

/-! Pending-audio buffering and replay (C6). -/

/-- C6 counterexample: an empty chunk written while no session is open is
buffered, the buffer stays far below its cap, yet on startStream() the
flush loop skips it — the chunk is never sent, so the claim that no chunk
is lost when the cap is not exceeded fails. -/
theorem gs_pending_replay_counterexample :
    ((GSState.fresh.initClient).write []).pendingAudio = [[]] ∧
      ((GSState.fresh.initClient).write []).pendingAudio.length ≤ 100 ∧
      (((GSState.fresh.initClient).write []).startStream).1.sent = [] ∧
      (((GSState.fresh.initClient).write []).startStream).1.pendingAudio = [] := by
  refine ⟨rfl, by decide, ?_, ?_⟩ <;> rfl

theorem filter_ne_nil_eq_self (l : List (List Nat)) (h : ∀ c ∈ l, c ≠ []) :
    l.filter (fun c => !c.isEmpty) = l := by
  induction l with
  | nil => rfl
  | cons c rest ih =>
    have hc : (!c.isEmpty) = true := by
      cases c with
      | nil => exact absurd rfl (h [] (List.mem_cons_self [] rest))
      | cons x xs => rfl
    rw [List.filter_cons, if_pos hc, ih (fun x hx => h x (List.mem_cons_of_mem _ hx))]

/-- C6 amended: writes with no open session append to the pending FIFO;
at the 100-chunk cap the oldest chunk is dropped and the newest kept; and
once a session opens, every nonempty pending chunk is replayed in its
original arrival order and the buffer is left empty (empty chunks are
skipped at replay — the one correction to the claim). -/
theorem gs_pending_fifo_amended
    (s₁ : GSState) (c₁ : List Nat)
    (h₁ : (s₁.isStreaming && s₁.stream) = false)
    (hlen₁ : s₁.pendingAudio.length ≤ 99)
    (s₂ : GSState) (c₂ : List Nat)
    (h₂ : (s₂.isStreaming && s₂.stream) = false)
    (hlen₂ : s₂.pendingAudio.length = 100)
    (s₃ : GSState) (h₃c : s₃.client = true) (h₃s : s₃.stream = false)
    (h₃n : ∀ c ∈ s₃.pendingAudio, c ≠ []) :
    (s₁.write c₁).pendingAudio = s₁.pendingAudio ++ [c₁] ∧
      (s₂.write c₂).pendingAudio = s₂.pendingAudio.tail ++ [c₂] ∧
      (s₃.startStream.1.sent = s₃.sent ++ s₃.pendingAudio ∧
        s₃.startStream.1.pendingAudio = []) := by
  refine ⟨?_, ?_, ?_⟩
  · have hcap : ¬100 < (s₁.pendingAudio ++ [c₁]).length := by
      simp only [List.length_append, List.length_cons, List.length_nil]
      omega
    simp [GSState.write, h₁]
    intro hx
    exact absurd hx (by omega)
  · have hcap : 100 < (s₂.pendingAudio ++ [c₂]).length := by
      simp only [List.length_append, List.length_cons, List.length_nil]
      omega
    have htail : (s₂.pendingAudio ++ [c₂]).tail = s₂.pendingAudio.tail ++ [c₂] := by
      cases hp : s₂.pendingAudio with
      | nil =>
        rw [hp] at hlen₂
        simp at hlen₂
      | cons c rest => simp
    simp [GSState.write, h₂, htail]
    intro hx
    exact absurd hx (by omega)
  · have hstart : s₃.startStream.1 =
        { s₃ with
          stream := true
          isStreaming := true
          openCount := s₃.openCount + 1
          reconnectTimer := true
          pendingAudio := []
          sent := s₃.sent ++ s₃.pendingAudio.filter (fun c => !c.isEmpty) } := by
      simp only [GSState.startStream, h₃c, Bool.not_true, Bool.false_eq_true,
        if_false, h₃s, GSState.flushPending]
      exact flushLoop_spec _ _ (le_refl _) rfl rfl
    rw [hstart]
    simp [filter_ne_nil_eq_self s₃.pendingAudio h₃n]

/-- Witness for the amended C6 theorem at concrete states. -/
theorem gs_pending_fifo_amended_witness :
    ((((⟨true, false, false, false, [], [], 0⟩ : GSState).isStreaming &&
          (⟨true, false, false, false, [], [], 0⟩ : GSState).stream) = false ∧
        (⟨true, false, false, false, [], [], 0⟩ :
          GSState).pendingAudio.length ≤ 99) ∧
      (((⟨true, false, false, false, List.replicate 100 [2], [], 0⟩ :
            GSState).isStreaming &&
          (⟨true, false, false, false, List.replicate 100 [2], [], 0⟩ :
            GSState).stream) = false ∧
        (⟨true, false, false, false, List.replicate 100 [2], [], 0⟩ :
          GSState).pendingAudio.length = 100) ∧
      ((⟨true, false, false, false, [[3], [4]], [], 0⟩ : GSState).client = true ∧
        (⟨true, false, false, false, [[3], [4]], [], 0⟩ : GSState).stream = false ∧
        ∀ c ∈ (⟨true, false, false, false, [[3], [4]], [], 0⟩ :
          GSState).pendingAudio, c ≠ [])) ∧
    (((⟨true, false, false, false, [], [], 0⟩ : GSState).write [1]).pendingAudio =
        (⟨true, false, false, false, [], [], 0⟩ : GSState).pendingAudio ++ [[1]] ∧
      ((⟨true, false, false, false, List.replicate 100 [2], [], 0⟩ :
            GSState).write [5]).pendingAudio =
        (⟨true, false, false, false, List.replicate 100 [2], [], 0⟩ :
          GSState).pendingAudio.tail ++ [[5]] ∧
      ((⟨true, false, false, false, [[3], [4]], [], 0⟩ :
            GSState).startStream.1.sent =
          (⟨true, false, false, false, [[3], [4]], [], 0⟩ : GSState).sent ++
            (⟨true, false, false, false, [[3], [4]], [], 0⟩ :
              GSState).pendingAudio ∧
        (⟨true, false, false, false, [[3], [4]], [], 0⟩ :
          GSState).startStream.1.pendingAudio = [])) :=
  ⟨⟨⟨rfl, by decide⟩, ⟨rfl, by decide⟩, ⟨rfl, rfl, by decide⟩⟩,
    gs_pending_fifo_amended
      ⟨true, false, false, false, [], [], 0⟩ [1] rfl (by decide)
      ⟨true, false, false, false, List.replicate 100 [2], [], 0⟩ [5] rfl (by decide)
      ⟨true, false, false, false, [[3], [4]], [], 0⟩ rfl rfl (by decide)⟩

/-! The orchestrating state machine: WakeWordService from
wakeWordService.ts (C8).  Only the pieces the claim exercises are
modelled: the status, the grace (silence) and recording timers, the
owned GoogleSpeechService and VAD, and the command-recorder flag. -/

inductive WWStatus
  | idle
  | listening
  | wakeDetected
  | commandWindow
  | processing
  | errorState
deriving DecidableEq, Repr

structure WWState where
  status : WWStatus
  isRunning : Bool
  silenceTimer : Bool
  recordingTimer : Bool
  gs : GSState
  vad : VAD
  geminiRecording : Bool
  speechBuffer : List (List Nat)
  currentTranscript : List Char
deriving DecidableEq, Repr

/-- WakeWordService.resetToIdle: clear both timers, stop the recognition
stream, clear the command recorder and buffers, reset the VAD, and go to
idle when the service is running. -/
def WWState.resetToIdle (s : WWState) : WWState :=
  { s with
    silenceTimer := false
    recordingTimer := false
    gs := s.gs.stopStream
    geminiRecording := false
    speechBuffer := []
    currentTranscript := []
    vad := s.vad.reset
    status := if s.isRunning then .idle else s.status }

/-- The VAD speechEnd handler: in Listening, schedule the 1.5 s grace
timer; in any other status do nothing. -/
def WWState.onSpeechEnd (s : WWState) : WWState :=
  if s.status = .listening then { s with silenceTimer := true } else s

/-- The grace-timer callback: when the pending timer fires and the status
is still Listening (no wake-phrase match arrived), reset to idle. -/
def WWState.onSilenceTimerFire (s : WWState) : WWState :=
  if s.silenceTimer then
    let s1 := { s with silenceTimer := false }
    if s1.status = .listening then s1.resetToIdle else s1
  else s

/-- C8: when the VAD reports speech-end in Listening, the grace timer is
scheduled with the status unchanged, and if it fires with the status
still Listening (no wake match within the grace period) the orchestrator
tears down the recognition session (stream closed, streaming flag
cleared, reconnect timer cancelled), returns to Idle, resets the VAD and
clears the grace timer. -/
theorem orchestrator_silence_grace_reset (s : WWState)
    (h1 : s.status = .listening) (h2 : s.isRunning = true) :
    s.onSpeechEnd.silenceTimer = true ∧
      s.onSpeechEnd.status = .listening ∧
      s.onSpeechEnd.onSilenceTimerFire.status = .idle ∧
      s.onSpeechEnd.onSilenceTimerFire.gs.stream = false ∧
      s.onSpeechEnd.onSilenceTimerFire.gs.isStreaming = false ∧
      s.onSpeechEnd.onSilenceTimerFire.gs.reconnectTimer = false ∧
      s.onSpeechEnd.onSilenceTimerFire.vad = VAD.initial ∧
      s.onSpeechEnd.onSilenceTimerFire.silenceTimer = false := by
  simp [WWState.onSpeechEnd, WWState.onSilenceTimerFire, WWState.resetToIdle,
    GSState.stopStream, VAD.reset, VAD.initial, h1, h2]

/-- Witness for the C8 theorem at a concrete Listening state with an open
recognition session. -/
theorem orchestrator_silence_grace_reset_witness :
    ((⟨.listening, true, false, false, ⟨true, true, true, true, [], [], 1⟩,
        ⟨.speech, [1], 3⟩, false, [[1]], ['a']⟩ : WWState).status = .listening ∧
      (⟨.listening, true, false, false, ⟨true, true, true, true, [], [], 1⟩,
        ⟨.speech, [1], 3⟩, false, [[1]], ['a']⟩ : WWState).isRunning = true) ∧
    ((⟨.listening, true, false, false, ⟨true, true, true, true, [], [], 1⟩,
          ⟨.speech, [1], 3⟩, false, [[1]], ['a']⟩ :
        WWState).onSpeechEnd.silenceTimer = true ∧
      (⟨.listening, true, false, false, ⟨true, true, true, true, [], [], 1⟩,
          ⟨.speech, [1], 3⟩, false, [[1]], ['a']⟩ :
        WWState).onSpeechEnd.status = .listening ∧
      (⟨.listening, true, false, false, ⟨true, true, true, true, [], [], 1⟩,
          ⟨.speech, [1], 3⟩, false, [[1]], ['a']⟩ :
        WWState).onSpeechEnd.onSilenceTimerFire.status = .idle ∧
      (⟨.listening, true, false, false, ⟨true, true, true, true, [], [], 1⟩,
          ⟨.speech, [1], 3⟩, false, [[1]], ['a']⟩ :
        WWState).onSpeechEnd.onSilenceTimerFire.gs.stream = false ∧
      (⟨.listening, true, false, false, ⟨true, true, true, true, [], [], 1⟩,
          ⟨.speech, [1], 3⟩, false, [[1]], ['a']⟩ :
        WWState).onSpeechEnd.onSilenceTimerFire.gs.isStreaming = false ∧
      (⟨.listening, true, false, false, ⟨true, true, true, true, [], [], 1⟩,
          ⟨.speech, [1], 3⟩, false, [[1]], ['a']⟩ :
        WWState).onSpeechEnd.onSilenceTimerFire.gs.reconnectTimer = false ∧
      (⟨.listening, true, false, false, ⟨true, true, true, true, [], [], 1⟩,
          ⟨.speech, [1], 3⟩, false, [[1]], ['a']⟩ :
        WWState).onSpeechEnd.onSilenceTimerFire.vad = VAD.initial ∧
      (⟨.listening, true, false, false, ⟨true, true, true, true, [], [], 1⟩,
          ⟨.speech, [1], 3⟩, false, [[1]], ['a']⟩ :
        WWState).onSpeechEnd.onSilenceTimerFire.silenceTimer = false) :=
  ⟨⟨rfl, rfl⟩,
    orchestrator_silence_grace_reset
      ⟨.listening, true, false, false, ⟨true, true, true, true, [], [], 1⟩,
        ⟨.speech, [1], 3⟩, false, [[1]], ['a']⟩ rfl rfl⟩

end HeidiWake
